import Mathlib

/-!
Verification of the bidirectional real-time audio streaming pipeline:
a browser client (microphone capture worklet, playback scheduler) and a
per-session relay server.

The embedding is shallow: JavaScript numbers are modelled as `ℚ` (all
arithmetic performed by the audio code — accumulator increments,
clamping, scaling by 32768/32767 — is exact on the values that occur),
PCM bytes and frames as `List ℕ`, and the DataView `setInt16` coercion
as truncation toward zero followed by wrapping into the signed 16-bit
range, which is the ECMAScript `ToInt16` conversion.  Base64 decoding
(`atob`) is a browser builtin, not repository code; envelopes are
modelled as already carrying the decoded byte payloads.
-/

namespace GeminiLiveChat

/-! ## Mic worklet: downsampling, quantization, chunking -/

/-- `this._ratio = this._sourceRate / this._targetRate` (worklet constructor). -/
def micRatio (sourceRate targetRate : ℚ) : ℚ := sourceRate / targetRate

/-- `Math.max(-1, Math.min(1, sample))` (worklet `process`, quantization step). -/
def clampSample (x : ℚ) : ℚ := max (-1) (min 1 x)

/-- `s = s < 0 ? s * 0x8000 : s * 0x7FFF` applied after clamping. -/
def quantize (x : ℚ) : ℚ :=
  let s := clampSample x
  if s < 0 then s * 32768 else s * 32767

/-- Truncation toward zero of a rational, the first half of the
ECMAScript `ToInt16` conversion performed by `DataView.setInt16`. -/
def ratTrunc (q : ℚ) : ℤ := if q < 0 then ⌈q⌉ else ⌊q⌋

/-- Wrap an integer into the signed 16-bit range, the second half of
the ECMAScript `ToInt16` conversion. -/
def wrap16 (z : ℤ) : ℤ := Int.emod (z + 32768) 65536 - 32768

/-- The number actually stored by `view.setInt16(i * 2, chunk[i], true)`
for a quantized sample. -/
def toInt16 (q : ℚ) : ℤ := wrap16 (ratTrunc q)

/-- Full outbound quantization of one float sample: clamp, asymmetric
scale, then the `setInt16` coercion. -/
def encodeSample (x : ℚ) : ℤ := toInt16 (quantize x)

/-- Inbound decoding in `playLoop`: `f32[i] = s / 0x8000` for the
int16 `s` read back from the wire. -/
def decodeSample (z : ℤ) : ℚ := (z : ℚ) / 32768

/-- One iteration of the downsampling loop in `MicWorklet.process`:
`this._acc += 1; if (this._acc >= this._ratio) { push quantized sample;
this._acc -= this._ratio }`.  State is the pair (accumulator,
resample buffer of quantized samples). -/
def downsampleStep (ratio : ℚ) (s : ℚ × List ℚ) (x : ℚ) : ℚ × List ℚ :=
  let a := s.1 + 1
  if ratio ≤ a then (a - ratio, s.2 ++ [quantize x]) else (a, s.2)

/-- The downsampling `for` loop of `MicWorklet.process` over one input
channel buffer. -/
def processSamples (ratio : ℚ) (s : ℚ × List ℚ) (input : List ℚ) : ℚ × List ℚ :=
  input.foldl (downsampleStep ratio) s

/-- `samplesPerChunk = Math.floor(0.02 * this._targetRate)` with the
worklet's fixed `_targetRate = 16000`. -/
def samplesPerChunk : ℕ := (⌊(0.02 : ℚ) * 16000⌋).toNat

theorem samplesPerChunk_eq : samplesPerChunk = 320 := by
  norm_num [samplesPerChunk]
  decide

/-- The chunk-emission `while` loop of `MicWorklet.process`:
`while (buffer.length >= samplesPerChunk) splice(0, samplesPerChunk)`.
`fuel` bounds the number of iterations; each iteration removes `n` (> 0)
samples, so `fuel = buffer.length` always suffices. -/
def emitChunksAux (n : ℕ) : ℕ → List ℚ → List (List ℚ) × List ℚ
  | 0, buf => ([], buf)
  | fuel + 1, buf =>
    if n ≤ buf.length ∧ 0 < n then
      let r := emitChunksAux n fuel (buf.drop n)
      (buf.take n :: r.1, r.2)
    else ([], buf)

/-- Chunk emission on a resample buffer: the list of emitted chunks and
the retained remainder. -/
def emitChunks (n : ℕ) (buf : List ℚ) : List (List ℚ) × List ℚ :=
  emitChunksAux n buf.length buf

/-- Worklet processor state: `this._resampleBuffer` and `this._acc`. -/
structure WState where
  resampleBuffer : List ℚ
  acc : ℚ
deriving DecidableEq

/-- Initial worklet state (`constructor`): empty buffer, accumulator 0. -/
def initW : WState := ⟨[], 0⟩

/-- One call of `MicWorklet.process` on one input channel buffer:
run the downsampling loop, then emit every full chunk (as the int16
values written into the posted `ArrayBuffer`), retaining the remainder. -/
def processCall (ratio : ℚ) (st : WState) (input : List ℚ) : WState × List (List ℤ) :=
  let s := processSamples ratio (st.acc, st.resampleBuffer) input
  let c := emitChunks samplesPerChunk s.2
  (⟨c.2, s.1⟩, c.1.map (fun chunk => chunk.map toInt16))

/-! ### C1: downsampling ratio 3 emits exactly floor(n/3) samples -/

theorem processSamples_count (input : List ℚ) :
    ∀ (r : ℕ) (buf : List ℚ), r < 3 →
      (processSamples 3 ((r : ℚ), buf) input).1 = (((r + input.length) % 3 : ℕ) : ℚ) ∧
      (processSamples 3 ((r : ℚ), buf) input).2.length = buf.length + (r + input.length) / 3 := by
  induction input with
  | nil =>
    intro r buf hr
    simp only [processSamples, List.foldl_nil, List.length_nil]
    constructor
    · congr 1
      omega
    · omega
  | cons x xs ih =>
    intro r buf hr
    simp only [processSamples, List.foldl_cons, List.length_cons]
    interval_cases r
    · have hstep : downsampleStep 3 (((0 : ℕ) : ℚ), buf) x = (((1 : ℕ) : ℚ), buf) := by
        simp only [downsampleStep]
        norm_num
      rw [hstep]
      have h := ih 1 buf (by omega)
      simp only [processSamples] at h
      refine ⟨h.1.trans ?_, h.2.trans ?_⟩
      · congr 1
        omega
      · omega
    · have hstep : downsampleStep 3 (((1 : ℕ) : ℚ), buf) x = (((2 : ℕ) : ℚ), buf) := by
        simp only [downsampleStep]
        norm_num
      rw [hstep]
      have h := ih 2 buf (by omega)
      simp only [processSamples] at h
      refine ⟨h.1.trans ?_, h.2.trans ?_⟩
      · congr 1
        omega
      · omega
    · have hstep : downsampleStep 3 (((2 : ℕ) : ℚ), buf) x
          = (((0 : ℕ) : ℚ), buf ++ [quantize x]) := by
        simp only [downsampleStep]
        norm_num
      rw [hstep]
      have h := ih 0 (buf ++ [quantize x]) (by omega)
      simp only [processSamples] at h
      refine ⟨h.1.trans ?_, h.2.trans ?_⟩
      · congr 1
        omega
      · simp only [List.length_append, List.length_cons, List.length_nil]
        omega

theorem foldl_processSamples_count (calls : List (List ℚ)) :
    ∀ (r : ℕ) (buf : List ℚ), r < 3 →
      ((calls.foldl (fun s input => processSamples 3 s input) ((r : ℚ), buf)).1
          = (((r + (calls.map List.length).sum) % 3 : ℕ) : ℚ)) ∧
      ((calls.foldl (fun s input => processSamples 3 s input) ((r : ℚ), buf)).2.length
          = buf.length + (r + (calls.map List.length).sum) / 3) := by
  induction calls with
  | nil =>
    intro r buf hr
    simp only [List.foldl_nil, List.map_nil, List.sum_nil]
    constructor
    · congr 1
      omega
    · omega
  | cons c cs ih =>
    intro r buf hr
    simp only [List.foldl_cons, List.map_cons, List.sum_cons]
    have hc := processSamples_count c r buf hr
    have hpair : processSamples 3 ((r : ℚ), buf) c
        = ((((r + c.length) % 3 : ℕ) : ℚ), (processSamples 3 ((r : ℚ), buf) c).2) := by
      rw [← hc.1]
    rw [hpair]
    have h := ih ((r + c.length) % 3) (processSamples 3 ((r : ℚ), buf) c).2 (by omega)
    refine ⟨h.1.trans ?_, h.2.trans ?_⟩
    · congr 1
      omega
    · rw [hc.2]
      omega

/-- Claim C1: for source rate 48 kHz and target rate 16 kHz
(`ratio = 3`), over any sequence of `process` calls starting from
accumulator 0, the total number of samples emitted into the resample
buffer is exactly `⌊n / 3⌋` of the `n` input samples consumed, and the
accumulator carries the remainder `n % 3` across calls; in particular
no output sample is produced before 3 input samples (modulo carry-over)
have been consumed. -/
theorem downsample_ratio3_emits_floor_third (calls : List (List ℚ)) :
    ((calls.foldl (fun s input => processSamples (micRatio 48000 16000) s input)
        ((0 : ℚ), ([] : List ℚ))).2.length
      = (calls.map List.length).sum / 3) ∧
    ((calls.foldl (fun s input => processSamples (micRatio 48000 16000) s input)
        ((0 : ℚ), ([] : List ℚ))).1
      = (((calls.map List.length).sum % 3 : ℕ) : ℚ)) := by
  have hr : micRatio 48000 16000 = 3 := by norm_num [micRatio]
  rw [hr]
  have h := foldl_processSamples_count calls 0 [] (by omega)
  simp only [Nat.cast_zero, List.length_nil, Nat.zero_add, Nat.zero_add] at h
  have h1 := h.1
  have h2 := h.2
  refine ⟨?_, ?_⟩
  · omega
  · rw [h1]

/-! ### C2: quantization -/

/-- Claim C2: quantization clamps each sample to [-1, 1] and scales
asymmetrically (negative × 32768, non-negative × 32767), so every
quantized value lies in the signed 16-bit range (no overflow); encoding
-1.0 yields the minimum int16 value -32768, encoding 1.0 yields the
maximum 32767, and encoding 0.5 then decoding with `s / 32768` returns
a value within 1/32768 of 0.5. -/
theorem quantize_pcm16_correct :
    (∀ x : ℚ, -1 ≤ clampSample x ∧ clampSample x ≤ 1) ∧
    (∀ x : ℚ, -32768 ≤ quantize x ∧ quantize x ≤ 32767) ∧
    encodeSample (-1) = -32768 ∧
    encodeSample 1 = 32767 ∧
    |decodeSample (encodeSample (1 / 2)) - 1 / 2| ≤ 1 / 32768 := by
  have hclamp : ∀ x : ℚ, -1 ≤ clampSample x ∧ clampSample x ≤ 1 := by
    intro x
    constructor
    · exact le_max_left _ _
    · exact max_le (by norm_num) (min_le_left _ _)
  refine ⟨hclamp, ?_, ?_, ?_, ?_⟩
  · intro x
    obtain ⟨hlo, hhi⟩ := hclamp x
    unfold quantize
    by_cases hneg : clampSample x < 0
    · simp only [hneg, if_true]
      constructor
      · nlinarith
      · nlinarith
    · simp only [hneg, if_false]
      push_neg at hneg
      constructor
      · nlinarith
      · nlinarith
  · have hq : quantize (-1) = ((-32768 : ℤ) : ℚ) := by
      norm_num [quantize, clampSample]
    have ht : ratTrunc ((-32768 : ℤ) : ℚ) = -32768 := by
      unfold ratTrunc
      rw [Int.ceil_intCast, Int.floor_intCast]
      norm_num
    simp only [encodeSample, hq, toInt16, ht]
    decide
  · norm_num [encodeSample, quantize, clampSample, toInt16, ratTrunc, wrap16]
  · have h16 : encodeSample (1 / 2) = 16383 := by
      norm_num [encodeSample, quantize, clampSample, toInt16, ratTrunc, wrap16]
    rw [h16, decodeSample, abs_le]
    norm_num

/-! ### C6: chunking into exact 320-sample frames -/

theorem emitChunksAux_lengths (n : ℕ) :
    ∀ (fuel : ℕ) (buf : List ℚ),
      ((emitChunksAux n fuel buf).1).map List.length
        = List.replicate ((emitChunksAux n fuel buf).1).length n := by
  intro fuel
  induction fuel with
  | zero => intro buf; simp [emitChunksAux]
  | succ fuel ih =>
    intro buf
    by_cases h : n ≤ buf.length ∧ 0 < n
    · simp only [emitChunksAux, if_pos h, List.map_cons, List.length_cons,
        List.replicate_succ]
      rw [ih (buf.drop n)]
      congr 1
      simp only [List.length_take]
      omega
    · simp [emitChunksAux, if_neg h]

theorem emitChunksAux_remainder (n : ℕ) (hn : 0 < n) :
    ∀ (fuel : ℕ) (buf : List ℚ), buf.length ≤ fuel →
      ((emitChunksAux n fuel buf).2).length < n := by
  intro fuel
  induction fuel with
  | zero =>
    intro buf hb
    have : buf = [] := List.length_eq_zero.mp (by omega)
    subst this
    simpa [emitChunksAux] using hn
  | succ fuel ih =>
    intro buf hb
    by_cases h : n ≤ buf.length ∧ 0 < n
    · simp only [emitChunksAux, if_pos h]
      exact ih (buf.drop n) (by simp only [List.length_drop]; omega)
    · simp only [emitChunksAux, if_neg h]
      omega

theorem emitChunksAux_conserves (n : ℕ) :
    ∀ (fuel : ℕ) (buf : List ℚ),
      ((emitChunksAux n fuel buf).1).flatten ++ (emitChunksAux n fuel buf).2 = buf := by
  intro fuel
  induction fuel with
  | zero => intro buf; simp [emitChunksAux]
  | succ fuel ih =>
    intro buf
    by_cases h : n ≤ buf.length ∧ 0 < n
    · simp only [emitChunksAux, if_pos h, List.flatten_cons, List.append_assoc]
      rw [ih (buf.drop n), List.take_append_drop]
    · simp [emitChunksAux, if_neg h]

/-- Claim C6: every frame emitted by a `process` call is exactly 320
samples (20 ms at 16 kHz); the quantized samples are released only in
full 320-sample chunks, any remainder below 320 is retained in the
worklet state for the next cycle, and nothing is dropped, emitted
short, or padded: emitted chunks followed by the retained remainder
reproduce the whole quantized sample stream in order. -/
theorem chunks_are_exactly_320 (st : WState) (input : List ℚ) :
    (((processCall (micRatio 48000 16000) st input).2).map List.length
        = List.replicate ((processCall (micRatio 48000 16000) st input).2).length 320) ∧
    ((processCall (micRatio 48000 16000) st input).1.resampleBuffer.length < 320) ∧
    (((processCall (micRatio 48000 16000) st input).2).flatten
        ++ ((processCall (micRatio 48000 16000) st input).1.resampleBuffer).map toInt16
      = ((processSamples (micRatio 48000 16000) (st.acc, st.resampleBuffer) input).2).map
          toInt16) := by
  simp only [processCall, emitChunks, samplesPerChunk_eq]
  refine ⟨?_, ?_, ?_⟩
  · rw [List.map_map]
    have hcomp : (List.length ∘ fun chunk => List.map toInt16 chunk)
        = (List.length : List ℚ → ℕ) := by
      funext c
      simp
    rw [hcomp, List.length_map]
    exact emitChunksAux_lengths 320 _ _
  · exact emitChunksAux_remainder 320 (by omega) _ _ (le_refl _)
  · rw [← List.map_flatten, ← List.map_append, emitChunksAux_conserves]

/-! ## Playback scheduler: inbound envelopes, queue, drain loop

The client keeps `playbackQueue` (an array of decoded PCM byte chunks)
and a `playing` flag.  `ws.onmessage` parses an inbound envelope; on an
`interrupted` flag it clears the queue; on inline audio it appends the
decoded bytes of `modelTurn.parts[0]` and, when `playing` is false,
sets it and spawns one `playLoop`.  `playLoop` repeatedly shifts the
oldest frame, plays it to completion, idles when the queue is empty,
and exits when `ws` is gone (empty-queue `break`) or `playing` is
cleared by `stop()`.

A frame is a `List ℕ` of decoded bytes.  The envelope model carries the
decoded payload directly (`atob` is a browser builtin).  `ClientState`
additionally carries ghost components never read by the handlers:
`played` (history of frames played to completion), `arrived` (history
of frames appended to the queue) and `loops` (number of `playLoop`
instances currently alive), used to state ordering and single-drain
properties of the event semantics. -/

/-- One element of `serverContent.modelTurn.parts`: optional
`inlineData.data`, carried as decoded bytes. -/
structure Part where
  inlineData : Option (List ℕ)
deriving DecidableEq

/-- `msg.serverContent`: optional `interrupted` flag (modelled with
`false` for absent), optional `modelTurn.parts`, optional
`outputTranscription.text`. -/
structure ServerContent where
  interrupted : Bool
  modelTurn : Option (List Part)
  outputTranscription : Option String
deriving DecidableEq

/-- A parsed inbound message: `setupComplete` (truthiness) and optional
`serverContent`. -/
structure Msg where
  setupComplete : Bool
  serverContent : Option ServerContent
deriving DecidableEq

/-- Client-side scheduler state.  `playbackQueue`, `playing`, the
`ws` handle (`wsOpen`), and the frame currently held by `playLoop`
between `shift()` and its `onended` (`current`); `played`, `arrived`
and `loops` are ghost history components (see section comment). -/
structure ClientState where
  playbackQueue : List (List ℕ)
  playing : Bool
  wsOpen : Bool
  current : Option (List ℕ)
  played : List (List ℕ)
  arrived : List (List ℕ)
  loops : ℕ
deriving DecidableEq

/-- State right after `start()` wired up the socket: empty queue, not
playing, socket open, no playback loop alive. -/
def initClient : ClientState := ⟨[], false, true, none, [], [], 0⟩

/-- The `ws.onmessage` handler body.  Mirrors the source: early return
on `setupComplete`; on `serverContent`: clear the queue if
`interrupted`; then, if `modelTurn.parts` is non-empty and `parts[0]`
has inline data, push the decoded bytes and start a `playLoop` when
`playing` is false (ghost `loops` counts the spawn).  Remaining parts
beyond `parts[0]` are never examined.  `outputTranscription` only
logs. -/
def onmessage (st : ClientState) (msg : Msg) : ClientState :=
  if msg.setupComplete then st
  else
    match msg.serverContent with
    | none => st
    | some sc =>
      let st1 := if sc.interrupted then { st with playbackQueue := [] } else st
      match sc.modelTurn with
      | some (part :: _) =>
        match part.inlineData with
        | some bytes =>
          { st1 with
            playbackQueue := st1.playbackQueue ++ [bytes],
            playing := true,
            loops := if st1.playing then st1.loops else st1.loops + 1 }
        | none => st1
      | _ => st1

/-- The frame that `onmessage` would append for a message, if any:
the inline data of `serverContent.modelTurn.parts[0]`. -/
def enqueuedFrame (msg : Msg) : Option (List ℕ) :=
  if msg.setupComplete then none
  else
    match msg.serverContent with
    | none => none
    | some sc =>
      match sc.modelTurn with
      | some (part :: _) => part.inlineData
      | _ => none

/-- Whether a message carries the barge-in interruption flag (and is
not short-circuited by `setupComplete`). -/
def msgInterrupts (msg : Msg) : Bool :=
  !msg.setupComplete &&
    (match msg.serverContent with
     | some sc => sc.interrupted
     | none => false)

/-- Exhaustive characterization of the `ws.onmessage` handler: the new
queue is the (possibly flushed) old queue with the envelope's first
inline audio frame (if any) appended; `current`, `played`, `arrived`
and `wsOpen` are untouched; `playing` becomes true exactly when audio
is appended; the ghost loop count grows by one exactly when a loop is
spawned (audio appended while `playing` was false). -/
theorem onmessage_spec (st : ClientState) (msg : Msg) :
    ((onmessage st msg).playbackQueue
        = (if msgInterrupts msg then [] else st.playbackQueue)
            ++ (enqueuedFrame msg).toList) ∧
    (onmessage st msg).current = st.current ∧
    (onmessage st msg).played = st.played ∧
    (onmessage st msg).arrived = st.arrived ∧
    (onmessage st msg).wsOpen = st.wsOpen ∧
    ((onmessage st msg).playing = (st.playing || (enqueuedFrame msg).isSome)) ∧
    ((onmessage st msg).loops
        = st.loops
            + (if st.playing = false ∧ (enqueuedFrame msg).isSome then 1 else 0)) := by
  obtain ⟨setup, content⟩ := msg
  cases setup with
  | true => simp [onmessage, enqueuedFrame, msgInterrupts]
  | false =>
    match content with
    | none => simp [onmessage, enqueuedFrame, msgInterrupts]
    | some ⟨intr, none, tr⟩ =>
      cases intr <;> simp [onmessage, enqueuedFrame, msgInterrupts]
    | some ⟨intr, some [], tr⟩ =>
      cases intr <;> simp [onmessage, enqueuedFrame, msgInterrupts]
    | some ⟨intr, some (⟨none⟩ :: rest), tr⟩ =>
      cases intr <;> simp [onmessage, enqueuedFrame, msgInterrupts]
    | some ⟨intr, some (⟨some bytes⟩ :: rest), tr⟩ =>
      cases intr <;> cases hp : st.playing <;>
        simp [onmessage, enqueuedFrame, msgInterrupts, hp]

/-! ### C3: interruption clears the queue -/

/-- Claim C3: delivering a server-content envelope with the
`interrupted` flag set and carrying no inline audio to a session whose
queue holds any number of buffered frames empties the queue (hard
flush): the discarded frames are not drained through playback (the
`played` history is untouched) and the frame already handed to the
output device (`current`) is unaffected, so it plays to completion. -/
theorem interruption_flushes_queue (st : ClientState) (sc : ServerContent)
    (hint : sc.interrupted = true)
    (hnoaudio : enqueuedFrame ⟨false, some sc⟩ = none) :
    (onmessage st ⟨false, some sc⟩).playbackQueue = [] ∧
    (onmessage st ⟨false, some sc⟩).current = st.current ∧
    (onmessage st ⟨false, some sc⟩).played = st.played := by
  have h := onmessage_spec st ⟨false, some sc⟩
  refine ⟨?_, h.2.1, h.2.2.1⟩
  rw [h.1, hnoaudio]
  simp [msgInterrupts, hint]

theorem interruption_flushes_queue_witness :
    ((⟨true, none, none⟩ : ServerContent).interrupted = true ∧
      enqueuedFrame ⟨false, some ⟨true, none, none⟩⟩ = none) ∧
    ((onmessage ⟨[[1], [2], [3]], true, true, some [9], [[0]], [[0]], 1⟩
        ⟨false, some ⟨true, none, none⟩⟩).playbackQueue = [] ∧
      (onmessage ⟨[[1], [2], [3]], true, true, some [9], [[0]], [[0]], 1⟩
        ⟨false, some ⟨true, none, none⟩⟩).current = some [9] ∧
      (onmessage ⟨[[1], [2], [3]], true, true, some [9], [[0]], [[0]], 1⟩
        ⟨false, some ⟨true, none, none⟩⟩).played = [[0]]) :=
  ⟨⟨by decide, by decide⟩,
    interruption_flushes_queue
      ⟨[[1], [2], [3]], true, true, some [9], [[0]], [[0]], 1⟩
      ⟨true, none, none⟩ (by decide) (by decide)⟩

/-! ### C9: only `parts[0]` is queued -/

/-- Claim C9: for a server-content envelope whose `modelTurn` holds two
or more parts with inline audio, only `parts[0]` is appended to the
playback queue; the handler's result is identical to handling the same
envelope with every part after the first removed, and the queue grows
by exactly the first part's bytes. -/
theorem only_first_part_queued (st : ClientState) (sc : ServerContent)
    (part : Part) (rest : List Part) (bytes : List ℕ)
    (hmt : sc.modelTurn = some (part :: rest))
    (hdata : part.inlineData = some bytes) :
    ((onmessage st ⟨false, some sc⟩).playbackQueue
        = (if sc.interrupted then [] else st.playbackQueue) ++ [bytes]) ∧
    (onmessage st ⟨false, some sc⟩
        = onmessage st ⟨false, some { sc with modelTurn := some [part] }⟩) := by
  constructor
  · have h := onmessage_spec st ⟨false, some sc⟩
    rw [h.1]
    simp [msgInterrupts, enqueuedFrame, hmt, hdata]
  · simp [onmessage, hmt, hdata]

theorem only_first_part_queued_witness :
    ((⟨false, some [⟨some [7]⟩, ⟨some [8]⟩], none⟩ : ServerContent).modelTurn
        = some (⟨some [7]⟩ :: [⟨some [8]⟩]) ∧
      (⟨some [7]⟩ : Part).inlineData = some [7]) ∧
    (((onmessage ⟨[[1]], true, true, none, [], [], 1⟩
          ⟨false, some ⟨false, some [⟨some [7]⟩, ⟨some [8]⟩], none⟩⟩).playbackQueue
        = (if (⟨false, some [⟨some [7]⟩, ⟨some [8]⟩], none⟩ : ServerContent).interrupted
            then [] else [[1]]) ++ [[7]]) ∧
      (onmessage ⟨[[1]], true, true, none, [], [], 1⟩
          ⟨false, some ⟨false, some [⟨some [7]⟩, ⟨some [8]⟩], none⟩⟩
        = onmessage ⟨[[1]], true, true, none, [], [], 1⟩
          ⟨false, some ⟨false, some [⟨some [7]⟩], none⟩⟩)) :=
  ⟨⟨by decide, by decide⟩,
    only_first_part_queued ⟨[[1]], true, true, none, [], [], 1⟩
      ⟨false, some [⟨some [7]⟩, ⟨some [8]⟩], none⟩
      ⟨some [7]⟩ [⟨some [8]⟩] [7] (by decide) (by decide)⟩

/-! ### C10: interruption plus audio in the same envelope -/

/-- Claim C10: for a server-content envelope carrying both the
`interrupted` flag and an inline audio part, the queue clear happens
before the append: afterwards the playback queue contains exactly the
one frame carried by that same envelope. -/
theorem interrupt_then_append (st : ClientState) (sc : ServerContent)
    (part : Part) (rest : List Part) (bytes : List ℕ)
    (hint : sc.interrupted = true)
    (hmt : sc.modelTurn = some (part :: rest))
    (hdata : part.inlineData = some bytes) :
    (onmessage st ⟨false, some sc⟩).playbackQueue = [bytes] := by
  have h := onmessage_spec st ⟨false, some sc⟩
  rw [h.1]
  simp [msgInterrupts, enqueuedFrame, hint, hmt, hdata]

theorem interrupt_then_append_witness :
    ((⟨true, some [⟨some [7]⟩], none⟩ : ServerContent).interrupted = true ∧
      (⟨true, some [⟨some [7]⟩], none⟩ : ServerContent).modelTurn
        = some (⟨some [7]⟩ :: []) ∧
      (⟨some [7]⟩ : Part).inlineData = some [7]) ∧
    (onmessage ⟨[[1], [2]], true, true, none, [], [], 1⟩
        ⟨false, some ⟨true, some [⟨some [7]⟩], none⟩⟩).playbackQueue = [[7]] :=
  ⟨⟨by decide, by decide, by decide⟩,
    interrupt_then_append ⟨[[1], [2]], true, true, none, [], [], 1⟩
      ⟨true, some [⟨some [7]⟩], none⟩ ⟨some [7]⟩ [] [7]
      (by decide) (by decide) (by decide)⟩

/-! ### Event semantics of one client session

The cooperative scheduler is modelled as a step function over atomic
events: an incoming message (`recv`), the drain loop shifting the
oldest frame (`dequeue`, the `playbackQueue.shift()` that hands the
frame to the output device), the current buffer's `onended` firing
(`finish`), a `playLoop` instance terminating (`loopExit`: its `while`
guard saw `playing === false` after `stop()`, or it hit the
empty-queue `break` once `ws` was gone), the socket's `onclose`
(`wsClose`), and the `stop()` button handler (`stop`).  Events whose
guard does not hold leave the state unchanged. -/

inductive SchedEvent where
  | recv (msg : Msg)
  | dequeue
  | finish
  | loopExit
  | wsClose
  | stop
deriving DecidableEq

/-- One atomic scheduler event. -/
def stepEv (st : ClientState) (e : SchedEvent) : ClientState :=
  match e with
  | .recv msg =>
    if st.wsOpen then
      { onmessage st msg with arrived := st.arrived ++ (enqueuedFrame msg).toList }
    else st
  | .dequeue =>
    if st.playing = true ∧ st.current = none then
      match st.playbackQueue with
      | f :: rest => { st with playbackQueue := rest, current := some f }
      | [] => st
    else st
  | .finish =>
    match st.current with
    | some f => { st with current := none, played := st.played ++ [f] }
    | none => st
  | .loopExit =>
    if st.loops ≠ 0 ∧
        (st.playing = false ∨
          (st.wsOpen = false ∧ st.playbackQueue = [] ∧ st.current = none)) then
      { st with loops := st.loops - 1 }
    else st
  | .wsClose => { st with wsOpen := false }
  | .stop =>
    { st with wsOpen := false, playbackQueue := [], playing := false, current := none }

/-- A session trace: the scheduler state after a list of events,
starting from the fresh session state. -/
def run (events : List SchedEvent) : ClientState :=
  events.foldl stepEv initClient

/-- An event that does not deliver a barge-in interruption. -/
def nonInterrupting (e : SchedEvent) : Bool :=
  match e with
  | .recv msg => !msgInterrupts msg
  | _ => true

/-! ### C7: playback order equals arrival order -/

/-- Ordering invariant: the frames played to completion, then the
frame at the output device, then the queued frames, form the arrival
history (up to a suffix of arrivals abandoned by `stop`, possible only
once the socket is gone). -/
def InvOrder (st : ClientState) : Prop :=
  ∃ t, st.arrived = (st.played ++ st.current.toList ++ st.playbackQueue) ++ t ∧
    (st.wsOpen = true → t = [])

theorem stepEv_invOrder (st : ClientState) (e : SchedEvent)
    (hni : nonInterrupting e = true) (h : InvOrder st) : InvOrder (stepEv st e) := by
  obtain ⟨q, p, w, cur, pl, arr, lo⟩ := st
  obtain ⟨t, ht, hws⟩ := h
  dsimp only at ht hws
  cases e with
  | recv msg =>
    cases w with
    | false => exact ⟨t, ht, hws⟩
    | true =>
      have hm := onmessage_spec ⟨q, p, true, cur, pl, arr, lo⟩ msg
      have hint : msgInterrupts msg = false := by
        simpa [nonInterrupting] using hni
      have ht0 : t = [] := hws rfl
      subst ht0
      refine ⟨[], ?_, fun _ => rfl⟩
      show arr ++ (enqueuedFrame msg).toList
          = ((onmessage ⟨q, p, true, cur, pl, arr, lo⟩ msg).played
              ++ (onmessage ⟨q, p, true, cur, pl, arr, lo⟩ msg).current.toList
              ++ (onmessage ⟨q, p, true, cur, pl, arr, lo⟩ msg).playbackQueue) ++ []
      rw [hm.2.2.1, hm.2.1, hm.1, hint, ht]
      dsimp only
      simp [List.append_assoc]
  | dequeue =>
    cases p with
    | false => exact ⟨t, ht, hws⟩
    | true =>
      match cur, ht with
      | some f, ht => exact ⟨t, ht, hws⟩
      | none, ht =>
        match q, ht with
        | [], ht => exact ⟨t, ht, hws⟩
        | f :: rest, ht =>
          refine ⟨t, ?_, hws⟩
          show arr = (pl ++ (some f).toList ++ rest) ++ t
          rw [ht]
          simp
  | finish =>
    match cur, ht with
    | none, ht => exact ⟨t, ht, hws⟩
    | some f, ht =>
      refine ⟨t, ?_, hws⟩
      show arr = ((pl ++ [f]) ++ (none : Option (List ℕ)).toList ++ q) ++ t
      rw [ht]
      simp
  | loopExit =>
    by_cases hc : lo ≠ 0 ∧
        (p = false ∨ (w = false ∧ q = ([] : List (List ℕ)) ∧ cur = none))
    · refine ⟨t, ?_, ?_⟩ <;> simp only [stepEv, if_pos hc]
      · exact ht
      · exact hws
    · refine ⟨t, ?_, ?_⟩ <;> simp only [stepEv, if_neg hc]
      · exact ht
      · exact hws
  | wsClose =>
    refine ⟨t, ht, ?_⟩
    intro hx
    simp [stepEv] at hx
  | stop =>
    refine ⟨cur.toList ++ q ++ t, ?_, ?_⟩
    · show arr = (pl ++ (none : Option (List ℕ)).toList ++ []) ++ (cur.toList ++ q ++ t)
      rw [ht]
      simp [List.append_assoc]
    · intro hx
      simp [stepEv] at hx

theorem foldl_invOrder (events : List SchedEvent) :
    ∀ st : ClientState, events.all nonInterrupting = true → InvOrder st →
      InvOrder (events.foldl stepEv st) := by
  induction events with
  | nil => intro st _ h; exact h
  | cons e es ih =>
    intro st hall h
    simp only [List.all_cons, Bool.and_eq_true] at hall
    exact ih (stepEv st e) hall.2 (stepEv_invOrder st e hall.1 h)

/-- Claim C7: within a session, for any sequence of events in which no
delivered envelope carries the interruption flag, the frames played to
completion are exactly an initial segment of the frames that arrived,
in arrival order: frames are appended at the queue's tail on arrival
and the drain loop removes the head and plays it to completion, so no
reordering or overlap occurs. -/
theorem playback_in_arrival_order (events : List SchedEvent)
    (h : events.all nonInterrupting = true) :
    (run events).played = ((run events).arrived).take ((run events).played).length := by
  have hinv : InvOrder (run events) :=
    foldl_invOrder events initClient h ⟨[], by simp [initClient], fun _ => rfl⟩
  obtain ⟨t, ht, _⟩ := hinv
  rw [ht]
  simp only [List.append_assoc]
  exact (List.take_left _ _).symm

theorem playback_in_arrival_order_witness :
    (([.recv ⟨false, some ⟨false, some [⟨some [1]⟩], none⟩⟩,
        .recv ⟨false, some ⟨false, some [⟨some [2]⟩], none⟩⟩,
        .dequeue, .finish, .dequeue, .finish] : List SchedEvent).all
          nonInterrupting = true) ∧
    (run [.recv ⟨false, some ⟨false, some [⟨some [1]⟩], none⟩⟩,
        .recv ⟨false, some ⟨false, some [⟨some [2]⟩], none⟩⟩,
        .dequeue, .finish, .dequeue, .finish]).played
      = ((run [.recv ⟨false, some ⟨false, some [⟨some [1]⟩], none⟩⟩,
          .recv ⟨false, some ⟨false, some [⟨some [2]⟩], none⟩⟩,
          .dequeue, .finish, .dequeue, .finish]).arrived).take
        ((run [.recv ⟨false, some ⟨false, some [⟨some [1]⟩], none⟩⟩,
          .recv ⟨false, some ⟨false, some [⟨some [2]⟩], none⟩⟩,
          .dequeue, .finish, .dequeue, .finish]).played).length :=
  ⟨by decide,
    playback_in_arrival_order
      [.recv ⟨false, some ⟨false, some [⟨some [1]⟩], none⟩⟩,
        .recv ⟨false, some ⟨false, some [⟨some [2]⟩], none⟩⟩,
        .dequeue, .finish, .dequeue, .finish] (by decide)⟩

/-! ### C8: at most one drain loop per session -/

/-- Single-drain invariant: at most one `playLoop` instance is alive,
and while `playing` is false a loop can only still be alive if the
socket is already gone (so no message can spawn a second one). -/
def InvLoops (st : ClientState) : Prop :=
  st.loops ≤ 1 ∧ (st.playing = false → st.loops = 0 ∨ st.wsOpen = false)

theorem stepEv_invLoops (st : ClientState) (e : SchedEvent)
    (h : InvLoops st) : InvLoops (stepEv st e) := by
  obtain ⟨q, p, w, cur, pl, arr, lo⟩ := st
  obtain ⟨h1, h2⟩ := h
  dsimp only at h1 h2
  cases e with
  | recv msg =>
    cases w with
    | false => exact ⟨h1, h2⟩
    | true =>
      have hm := onmessage_spec ⟨q, p, true, cur, pl, arr, lo⟩ msg
      refine ⟨?_, ?_⟩
      · show (onmessage ⟨q, p, true, cur, pl, arr, lo⟩ msg).loops ≤ 1
        rw [hm.2.2.2.2.2.2]
        dsimp only
        cases p with
        | true => simpa using h1
        | false =>
          cases hs : (enqueuedFrame msg).isSome with
          | true =>
            rcases h2 rfl with h0 | hw
            · simp [hs, h0]
            · simp at hw
          | false => simpa [hs] using h1
      · show (onmessage ⟨q, p, true, cur, pl, arr, lo⟩ msg).playing = false →
            (onmessage ⟨q, p, true, cur, pl, arr, lo⟩ msg).loops = 0 ∨
              (onmessage ⟨q, p, true, cur, pl, arr, lo⟩ msg).wsOpen = false
        rw [hm.2.2.2.2.2.1, hm.2.2.2.2.2.2, hm.2.2.2.2.1]
        dsimp only
        intro hfalse
        cases p with
        | true => simp at hfalse
        | false =>
          cases hs : (enqueuedFrame msg).isSome with
          | true =>
            rw [hs] at hfalse
            simp at hfalse
          | false =>
            left
            rcases h2 rfl with h0 | hw
            · simp [hs, h0]
            · simp at hw
  | dequeue =>
    cases p with
    | false => exact ⟨h1, h2⟩
    | true =>
      match cur with
      | some f => exact ⟨h1, h2⟩
      | none =>
        match q with
        | [] => exact ⟨h1, h2⟩
        | f :: rest =>
          refine ⟨h1, ?_⟩
          intro hp
          simp [stepEv] at hp
  | finish =>
    match cur with
    | none => exact ⟨h1, h2⟩
    | some f => exact ⟨h1, h2⟩
  | loopExit =>
    by_cases hc : lo ≠ 0 ∧
        (p = false ∨ (w = false ∧ q = ([] : List (List ℕ)) ∧ cur = none))
    · refine ⟨?_, ?_⟩ <;> simp only [stepEv, if_pos hc]
      · omega
      · intro hp
        rcases h2 hp with h0 | hw
        · left
          omega
        · right
          exact hw
    · refine ⟨?_, ?_⟩ <;> simp only [stepEv, if_neg hc]
      · exact h1
      · exact h2
  | wsClose =>
    refine ⟨h1, ?_⟩
    intro _
    right
    rfl
  | stop =>
    refine ⟨h1, ?_⟩
    intro _
    right
    rfl

theorem foldl_invLoops (events : List SchedEvent) :
    ∀ st : ClientState, InvLoops st → InvLoops (events.foldl stepEv st) := by
  induction events with
  | nil => intro st h; exact h
  | cons e es ih => intro st h; exact ih (stepEv st e) (stepEv_invLoops st e h)

/-- Claim C8: in every reachable state of the scheduler at most one
drain loop is alive: `playLoop` is spawned only after observing
`playing === false` and setting the flag, the flag is cleared only by
`stop()` (which also closes the socket, so no later message can spawn
a second loop while an old one is still alive), hence the ghost count
of live `playLoop` instances never exceeds one. -/
theorem at_most_one_drain_loop (events : List SchedEvent) :
    (run events).loops ≤ 1 :=
  (foldl_invLoops events initClient ⟨by simp [initClient], fun _ => Or.inl rfl⟩).1

/-! ## Session relay (server/index.js)

Per client connection the relay opens one upstream (Gemini) socket and
installs handlers.  We model the upstream-side handlers as a function
from upstream socket events to the list of actions the handler body
performs, in order.  `RelayAction.openUpstream` represents opening a
(new) upstream connection: no handler ever emits it, which is the
"no retry / no reconnection" property.  The setup payload sent on
`open` is abstracted as an uninterpreted constant string.

The `ws` websocket library guarantees that after an `error` event the
socket is closed and a `close` event follows; theorems about the
"error" behaviour therefore quantify over event traces in which the
`errored` event is eventually followed by a `closed` event. -/

/-- The `{ error: ..., detail: ... }` JSON object sent to the client
on an upstream socket error. -/
structure ErrorEnvelope where
  error : String
  detail : String
deriving DecidableEq

/-- Payload of a `client.send`: either bytes forwarded verbatim from
the upstream socket, or a serialized error envelope. -/
inductive ClientPayload where
  | forwarded (data : String)
  | errEnv (e : ErrorEnvelope)
deriving DecidableEq

/-- An action performed by an upstream-event handler. -/
inductive RelayAction where
  | sendUpstream (data : String)
  | sendClient (p : ClientPayload)
  | closeClient
  | closeUpstream
  | openUpstream
deriving DecidableEq

/-- An event on the upstream (Gemini) socket. -/
inductive UpstreamEvent where
  | opened
  | message (data : String)
  | closed (code : ℕ) (reason : String)
  | errored (message : String)
deriving DecidableEq

/-- The serialized setup message (model, AUDIO modality, system
instruction, automatic activity detection, output transcription) sent
on `open`; its content is irrelevant to the claims and abstracted. -/
def setupPayload : String := "setup"

/-- The four upstream-side handlers installed by the relay for a
session: `gemini.on('open' | 'message' | 'close' | 'error')`. -/
def geminiHandler : UpstreamEvent → List RelayAction
  | .opened => [.sendUpstream setupPayload]
  | .message data => [.sendClient (.forwarded data)]
  | .closed _ _ => [.closeClient]
  | .errored m => [.sendClient (.errEnv ⟨"Gemini connection error", m⟩)]

/-- All actions performed over a trace of upstream events. -/
def relayRun (events : List UpstreamEvent) : List RelayAction :=
  events.flatMap geminiHandler

theorem relayRun_append (a b : List UpstreamEvent) :
    relayRun (a ++ b) = relayRun a ++ relayRun b := by
  simp [relayRun]

/-! ### C4: upstream error is surfaced and terminal -/

/-- Claim C4: when the upstream connection reports an error, the relay
sends the client a structured error envelope of shape
`{ error, detail }` (with the fixed error string and the error's
message as detail); on the `close` event that the socket library
delivers after an error, the relay closes the client connection; and
no handler ever opens a new upstream connection, so the session is
not retried. -/
theorem upstream_error_terminal (m : String) (pre mid post : List UpstreamEvent)
    (code : ℕ) (reason : String) :
    geminiHandler (.errored m)
        = [.sendClient (.errEnv ⟨"Gemini connection error", m⟩)] ∧
    geminiHandler (.closed code reason) = [.closeClient] ∧
    (RelayAction.sendClient (.errEnv ⟨"Gemini connection error", m⟩)
        ∈ relayRun (pre ++ [.errored m] ++ mid ++ [.closed code reason] ++ post)) ∧
    (RelayAction.closeClient
        ∈ relayRun (pre ++ [.errored m] ++ mid ++ [.closed code reason] ++ post)) ∧
    (∀ events : List UpstreamEvent, RelayAction.openUpstream ∉ relayRun events) := by
  refine ⟨rfl, rfl, ?_, ?_, ?_⟩
  · simp only [relayRun_append]
    simp [relayRun, geminiHandler]
  · simp only [relayRun_append]
    simp [relayRun, geminiHandler]
  · intro events hmem
    simp only [relayRun, List.mem_flatMap] at hmem
    obtain ⟨e, _, hact⟩ := hmem
    cases e <;> simp [geminiHandler] at hact

/-! ## Client start: capture permission denial (C5)

`start()` assigns the websocket handle (`ws = new WebSocket(...)`,
with status "connecting…") *before* awaiting
`navigator.mediaDevices.getUserMedia`.  The microphone acquisition
result is an input to the model (`Except String Unit`: the browser
grants or rejects).  On rejection `start`'s promise rejects there and
nothing later in `start` runs; the click handler's `.catch` logs
"Start failed: …" to the UI log. -/

/-- Main-thread page state touched by `start()` / `stop()`. -/
structure AppState where
  ws : Bool
  audioCtx : Bool
  workletNode : Bool
  startDisabled : Bool
  stopDisabled : Bool
  status : String
  log : List String
deriving DecidableEq

/-- Page state on load: no connection, no audio graph. -/
def initApp : AppState :=
  { ws := false, audioCtx := false, workletNode := false,
    startDisabled := false, stopDisabled := true, status := "idle", log := [] }

/-- The `start()` operation.  `micResult` is the outcome of the
`getUserMedia` permission request.  Returns the state as left by
`start` together with `start`'s own outcome (`Except.error` when the
awaited `getUserMedia` promise rejected, making `start`'s promise
reject at that point). -/
def start (st : AppState) (micResult : Except String Unit) :
    AppState × Except String Unit :=
  if st.ws then (st, Except.ok ())
  else
    let st1 := { st with ws := true, status := "connecting…" }
    match micResult with
    | .error e => (st1, Except.error e)
    | .ok _ =>
      let st2 := { st1 with
        audioCtx := true
        workletNode := true
        startDisabled := true
        stopDisabled := false }
      (st2, Except.ok ())

/-- The start-button click handler:
`start().catch(e => log('Start failed: ' + e.message))`. -/
def startClick (st : AppState) (micResult : Except String Unit) : AppState :=
  match start st micResult with
  | (st2, .ok _) => st2
  | (st2, .error e) => { st2 with log := st2.log ++ ["Start failed: " ++ e] }

/-! ### C5: corrected — permission denial leaves the connection behind -/

/-- Counterexample to claim C5 as stated: starting from the fresh page
state (no connection), a denied capture permission aborts `start`, the
failure is logged, but the client-to-relay connection created at the
top of `start` persists afterwards (`ws` is still set), so
partial-start state IS left behind. -/
theorem start_denied_leaves_ws_open :
    initApp.ws = false ∧
    (startClick initApp (Except.error "Permission denied")).ws = true ∧
    ("Start failed: Permission denied"
        ∈ (startClick initApp (Except.error "Permission denied")).log) := by
  refine ⟨rfl, rfl, ?_⟩
  decide

/-- Claim C5 (amended): if capture permission is denied during a fresh
`start`, the failure is propagated to the caller (`start`'s outcome is
the error) and surfaced to the user via the "Start failed: …" log
entry, and no audio-capture state is created — but the
client-to-relay connection opened earlier in `start` persists (`ws`
remains set). -/
theorem start_denied_propagates (st : AppState) (e : String)
    (hws : st.ws = false) :
    (start st (Except.error e)).2 = Except.error e ∧
    (startClick st (Except.error e)).ws = true ∧
    (startClick st (Except.error e)).audioCtx = st.audioCtx ∧
    (startClick st (Except.error e)).workletNode = st.workletNode ∧
    (startClick st (Except.error e)).startDisabled = st.startDisabled ∧
    (("Start failed: " ++ e) ∈ (startClick st (Except.error e)).log) := by
  have hne : ¬ (st.ws = true) := by simp [hws]
  refine ⟨?_, ?_, ?_, ?_, ?_, ?_⟩ <;>
    simp [start, startClick, hne]

theorem start_denied_propagates_witness :
    initApp.ws = false ∧
    ((start initApp (Except.error "denied")).2 = Except.error "denied" ∧
      (startClick initApp (Except.error "denied")).ws = true ∧
      (startClick initApp (Except.error "denied")).audioCtx = initApp.audioCtx ∧
      (startClick initApp (Except.error "denied")).workletNode = initApp.workletNode ∧
      (startClick initApp (Except.error "denied")).startDisabled = initApp.startDisabled ∧
      (("Start failed: " ++ "denied")
          ∈ (startClick initApp (Except.error "denied")).log)) :=
  ⟨by decide, start_denied_propagates initApp "denied" (by decide)⟩

end GeminiLiveChat
